import Mathlib

/-!
Shallow embedding of the goleveldb core (`src/leveldb/db.go`,
`src/unnamed/part_000` = internal options) and the external pieces the
claims need.  Byte strings are `List Nat` (each element a byte value);
machine integers are `Nat` with explicit truncation where Go's `uint64`
overflow matters.  Definitions translated from files of the repository
that are not under `src/` (key.go, comparer, memdb, version.go, journal,
cache, db_state helpers) carry a doc comment starting
`Modelled from the spec:`.
-/

namespace GoLevelDB

/-- Byte strings (Go `[]byte`): a list of byte values. -/
abbrev Bytes := List Nat

/-- Value kind of a deletion tombstone (Go `tDel = 0`). -/
def tDel : Nat := 0

/-- Value kind of a plain value record (Go `tVal = 1`). -/
def tVal : Nat := 1

/-- Kind used for lookup probes (Go `tSeek = tVal`). -/
def tSeek : Nat := tVal

/-- Largest sequence number, 56 bits (Go `kMaxSeq`). -/
def kMaxSeq : Nat := 2 ^ 56 - 1

/-- Number of levels (Go `kNumLevels`).
Modelled from the spec: the constant lives in config.go, not under src/;
its exact value does not decide any claim. -/
def kNumLevels : Nat := 7

/-- Little-endian encoding of the low 64 bits of `x` into 8 bytes
(Go `binary.LittleEndian.PutUint64`). -/
def putUint64LE (x : Nat) : Bytes :=
  [x % 256, x / 256 % 256, x / 65536 % 256, x / 16777216 % 256,
   x / 4294967296 % 256, x / 1099511627776 % 256,
   x / 281474976710656 % 256, x / 72057594037927936 % 256]

/-- Little-endian decoding of an 8-byte string
(Go `binary.LittleEndian.Uint64`); callers guard the length. -/
def uint64LE : Bytes → Nat
  | [b0, b1, b2, b3, b4, b5, b6, b7] =>
      b0 + b1 * 256 + b2 * 65536 + b3 * 16777216 + b4 * 4294967296 +
        b5 * 1099511627776 + b6 * 281474976710656 + b7 * 72057594037927936
  | _ => 0

/-- Modelled from the spec: internal-key construction (key.go `newIKey`,
not under src/) — `user_key || seq:56 || kind:8`, the 64-bit tail encoded
little-endian as `seq<<8 | kind`. -/
def newIKey (ukey : Bytes) (seq kind : Nat) : Bytes :=
  ukey ++ putUint64LE (seq * 256 + kind)

/-- User-key part of an internal key (all but the trailing 8 bytes). -/
def iukey (k : Bytes) : Bytes := k.take (k.length - 8)

/-- The packed `seq<<8 | kind` number of an internal key. -/
def ikeyNum (k : Bytes) : Nat := uint64LE (k.drop (k.length - 8))

/-- Modelled from the spec: key.go `parseIkey` (not under src/): fails on
keys shorter than 8 bytes or with a kind byte above `tVal`. -/
def parseIkey (k : Bytes) : Option (Bytes × Nat × Nat) :=
  if k.length < 8 then none
  else
    let n := ikeyNum k
    let kd := n % 256
    if tVal < kd then none else some (iukey k, n / 256, kd)

/-- Modelled from the spec: key.go `iKey.parseNum` (not under src/):
the `(seq, kind)` of an internal key, failing as `parseIkey` does. -/
def parseNum (k : Bytes) : Option (Nat × Nat) :=
  if k.length < 8 then none
  else
    let n := ikeyNum k
    let kd := n % 256
    if tVal < kd then none else some (n / 256, kd)

/-- Lexicographic byte comparison — the default user comparator
(spec §4.1: "the default is lexicographic"). -/
def bytesCmp : Bytes → Bytes → Ordering
  | [], [] => .eq
  | [], _ :: _ => .lt
  | _ :: _, [] => .gt
  | a :: as, b :: bs =>
      if a < b then .lt else if b < a then .gt else bytesCmp as bs

/-- Modelled from the spec: the internal comparator (§3): user key
ascending, then the packed `seq<<8|kind` number descending. -/
def icmp (a b : Bytes) : Ordering :=
  match bytesCmp (iukey a) (iukey b) with
  | .eq =>
      let an := ikeyNum a
      let bn := ikeyNum b
      if bn < an then .lt else if an < bn then .gt else .eq
  | o => o

/-- A memtable: internal-key/value pairs (the skip list is modelled
extensionally as its set of entries). -/
abbrev Memtable := List (Bytes × Bytes)

/-- Modelled from the spec: memdb `Find` (§4.2 `find_ge`, memdb not under
src/): the least entry whose key is `≥` the probe under the internal
comparator, `none` when no such entry exists. -/
def mdbFind (m : Memtable) (ik : Bytes) : Option (Bytes × Bytes) :=
  m.foldl
    (fun best e =>
      if icmp e.1 ik = .lt then best
      else
        match best with
        | none => some e
        | some b => if icmp e.1 b.1 = .lt then some e else some b)
    none

/-- Errors surfaced by the embedded operations (db.go error values; Go
runtime panics are modelled by `indexOutOfRange`). -/
inductive DBErr where
  | notFound
  | closed
  | errExist
  | notExist
  | corruption
  | ioError
  | indexOutOfRange
  | invalidProperty
  | unknownProperty
  deriving DecidableEq, Repr

/-- Equality of `Except` results is decidable componentwise. -/
def exceptDecEq {ε α : Type} [DecidableEq ε] [DecidableEq α] :
    DecidableEq (Except ε α)
  | .ok a, .ok b =>
      if h : a = b then isTrue (congrArg Except.ok h)
      else isFalse fun hc => h (Except.ok.inj hc)
  | .error a, .error b =>
      if h : a = b then isTrue (congrArg Except.error h)
      else isFalse fun hc => h (Except.error.inj hc)
  | .ok _, .error _ => isFalse fun hc => Except.noConfusion hc
  | .error _, .ok _ => isFalse fun hc => Except.noConfusion hc

instance {ε α : Type} [DecidableEq ε] [DecidableEq α] :
    DecidableEq (Except ε α) :=
  exceptDecEq

/-- Result of the `memGet` closure in `(*DB).get` (db.go:395-408):
`(found, value, err)` mirroring the mutated named returns.  The closure
returns `false` not only when the memtable lacks a record `≥` the probe
for the user key, but also when the found record is a tombstone
(`t == tDel`), merely setting `err = ErrNotFound`. -/
def memGet (m : Memtable) (key ik : Bytes) : Bool × Option Bytes × Option DBErr :=
  match mdbFind m ik with
  | none => (false, none, some .notFound)
  | some (rkey, v) =>
      match parseIkey rkey with
      | none => (false, none, some .notFound)
      | some (ukey, _, t) =>
          if bytesCmp ukey key = .eq ∧ t ≠ tDel then (true, some v, none)
          else (false, none, some .notFound)

/-- A table file's record list, in internal-key order. -/
abbrev TFile := List (Bytes × Bytes)

/-- A version: per-level table lists; level 0 listed newest-first. -/
abbrev Version := List (List TFile)

/-- Least record `≥` the probe within one table (table reader get). -/
def tableFind (t : TFile) (ik : Bytes) : Option (Bytes × Bytes) :=
  mdbFind t ik

/-- Modelled from the spec: per-level search of version.get (§4.6,
version.go not under src/): the first table in order whose record `≥`
the probe carries the probed user key. -/
def levelFind (tables : List TFile) (key ik : Bytes) : Option (Bytes × Bytes) :=
  match tables with
  | [] => none
  | t :: ts =>
      match tableFind t ik with
      | some (rk, rv) =>
          if bytesCmp (iukey rk) key = .eq then some (rk, rv)
          else levelFind ts key ik
      | none => levelFind ts key ik

/-- Modelled from the spec: version.get (§4.6, version.go not under
src/): walk the levels in order, stop at the first matching user key,
return its value for kind `Value` and `NotFound` for a tombstone. -/
def vGet (v : Version) (key ik : Bytes) : Except DBErr Bytes :=
  match v with
  | [] => .error .notFound
  | lvl :: rest =>
      match levelFind lvl key ik with
      | some (rk, rv) =>
          match parseIkey rk with
          | some (_, _, kd) => if kd = tVal then .ok rv else .error .notFound
          | none => .error .notFound
      | none => vGet rest key ik

/-- `(*DB).get` (db.go:389-425): probe `(key, seq, tSeek)`; consult the
active memtable, then the frozen one, then the current version.  The
`memGet(mem) || (frozenMem != nil && memGet(frozenMem))` short-circuit
is mirrored exactly: a `false` from `memGet` — including the tombstone
case — falls through to the next source. -/
def dbGet (mem : Memtable) (frozen : Option Memtable) (v : Version)
    (key : Bytes) (seq : Nat) : Except DBErr Bytes :=
  let ik := newIKey key seq tSeek
  let r1 := memGet mem key ik
  if r1.1 then
    match r1.2.1 with
    | some val => .ok val
    | none => .error .notFound
  else
    match frozen with
    | some fm =>
        let r2 := memGet fm key ik
        if r2.1 then
          match r2.2.1 with
          | some val => .ok val
          | none => .error .notFound
        else vGet v key ik
    | none => vGet v key ik

/-- A decoded user-level record: user key, sequence, kind, value. -/
structure URecord where
  ukey : Bytes
  seq : Nat
  kind : Nat
  val : Bytes
  deriving DecidableEq, Repr

/-- The decoded records of a memtable. -/
def memRecords (m : Memtable) : List URecord :=
  m.filterMap fun e =>
    (parseIkey e.1).map fun p => ⟨p.1, p.2.1, p.2.2, e.2⟩

/-- The decoded records of every table of a version. -/
def verRecords (v : Version) : List URecord :=
  (v.map fun lvl => (lvl.map fun t => memRecords t).flatten).flatten

/-- Every decoded record visible to a read: active memtable, frozen
memtable, current version. -/
def allRecords (mem : Memtable) (frozen : Option Memtable) (v : Version) :
    List URecord :=
  memRecords mem ++
    (match frozen with | some fm => memRecords fm | none => []) ++
    verRecords v

/-- The record with maximum sequence among a candidate list. -/
def maxBySeq (recs : List URecord) : Option URecord :=
  recs.foldl
    (fun best r =>
      match best with
      | none => some r
      | some b => if b.seq < r.seq then some r else some b)
    none

/-- The spec's read resolution (§8: the record with maximum `seq ≤ s`;
`NotFound` when it is a tombstone or absent).  This is the spec-side
reference the code is compared against. -/
def specResolve (recs : List URecord) (key : Bytes) (s : Nat) :
    Except DBErr Bytes :=
  match maxBySeq (recs.filter fun r => r.ukey = key ∧ r.seq ≤ s) with
  | none => .error .notFound
  | some r => if r.kind = tVal then .ok r.val else .error .notFound

/-- C1 demo input: the probed user key. -/
def c1key : Bytes := [120]

/-- C1 demo input: active memtable holding only a tombstone for `c1key`
at sequence 2. -/
def c1mem : Memtable := [(newIKey c1key 2 tDel, [])]

/-- C1 demo input: frozen memtable holding the older value `[118]` for
`c1key` at sequence 1. -/
def c1frozen : Memtable := [(newIKey c1key 1 tVal, [118])]

/-- Storage file types (`storage.FileType`). -/
inductive FType where
  | table
  | journalType
  | manifest
  | current
  | temp
  | lockType
  deriving DecidableEq, Repr

/-- A storage file as `Recover` sees it: file number, type, and — for
table files — the record keys in table-iteration order. -/
structure SFile where
  num : Nat
  ftype : FType
  recs : List Bytes
  deriving DecidableEq, Repr

/-- Ordering of storage files by file number. -/
def fileLe (a b : SFile) : Prop := a.num ≤ b.num

instance : DecidableRel fileLe := fun a b => Nat.decLe a.num b.num

instance : IsTotal SFile fileLe := ⟨fun a b => Nat.le_total a.num b.num⟩

instance : IsTrans SFile fileLe := ⟨fun _ _ _ h₁ h₂ => Nat.le_trans h₁ h₂⟩

/-- Modelled from the spec: `files.sort` (session file-list helper, not
under src/) sorts ascending by file number — the order `recoverJournal`
relies on for journal replay and `Recover` for the largest number. -/
def sortFiles (l : List SFile) : List SFile := List.insertionSort fileLe l

/-- A table file that `Recover`'s scan keeps: table-typed and nonempty
(an empty table is skipped via the `iter.First()` failure branch,
db.go:216-224). -/
def keptTable (f : SFile) : Bool :=
  f.ftype == FType.table && !f.recs.isEmpty

/-- One step of the largest-sequence scan (db.go:247-255):
unparseable keys are skipped, larger sequences replace the accumulator. -/
def seqStep (acc : Nat) (k : Bytes) : Nat :=
  match parseNum k with
  | some p => if acc < p.1 then p.1 else acc
  | none => acc

/-- Largest parseable sequence number among a table's record keys. -/
def tableMaxSeq (recs : List Bytes) : Nat := recs.foldl seqStep 0

/-- The table `nt` at the end of `Recover`'s scan: the last nonempty
table of the sorted file list. -/
def newestTable (files0 : List SFile) : Option SFile :=
  ((sortFiles files0).filter keptTable).getLast?

/-- The sequence `Recover` commits (db.go:243-258): the largest
sequence of the newest table only; 0 when no table survived the scan
(`rec.setSeq` is then never called and the fresh session's sequence
stays 0). -/
def recoverSeq (files0 : List SFile) : Nat :=
  match newestTable files0 with
  | some t => tableMaxSeq t.recs
  | none => 0

/-- Session state after `Recover` commits its manifest. -/
structure RState where
  stSeq : Nat
  stFileNum : Nat
  files : List SFile
  deriving DecidableEq, Repr

/-- `Recover` (db.go:177-273) on an error-free storage, from the file
scan to the manifest commit.  `s.stFileNum = ff[len(ff)-1].Num() + 1`
(db.go:261) indexes the sorted list without an emptiness guard; the Go
runtime panic on an empty listing is modelled as `indexOutOfRange`.
`s.create()` (session, not under src/) then allocates the fresh
manifest's file number from `stFileNum`, leaving the next file number
one past it. -/
def recoverPipeline (files0 : List SFile) : Except DBErr RState :=
  let ff := sortFiles files0
  match ff.getLast? with
  | none => .error .indexOutOfRange
  | some last =>
      .ok { stSeq := recoverSeq files0
            stFileNum := last.num + 2
            files := files0 ++ [⟨last.num + 1, .manifest, []⟩] }

/-- The spec-side quantity claim C2 asserts `Recover` commits: the
largest sequence over the records of all scanned table files. -/
def maxSeqAllTables (files0 : List SFile) : Nat :=
  (files0.filter fun f => f.ftype == FType.table).foldl
    (fun acc f => Nat.max acc (tableMaxSeq f.recs)) 0

/-- C2 demo input: an older table (file 1) holding sequence 5, a newer
table (file 2) holding only sequence 3. -/
def c2files : List SFile :=
  [⟨1, .table, [newIKey [10] 5 tVal]⟩, ⟨2, .table, [newIKey [11] 3 tVal]⟩]

/-- A journal record as the journal reader delivers it: either a record
that checks out or a corrupted one. -/
inductive JFrame where
  | recFrame (b : Bytes)
  | corruptFrame
  deriving DecidableEq, Repr

/-- Modelled from the spec: journal replay over one journal's records
(journal.Reader is not under src/; §4.3 and §7).  Non-strict: a
corrupted record is dropped, reported to the drop sink (counted here),
and reading continues; strict: the first corruption aborts with an
error.  Returns the surviving records and the number of drops. -/
def journalReplay (strict : Bool) : List JFrame → Except DBErr (List Bytes × Nat)
  | [] => .ok ([], 0)
  | .recFrame b :: fs =>
      (journalReplay strict fs).map fun p => (b :: p.1, p.2)
  | .corruptFrame :: fs =>
      if strict then .error .corruption
      else (journalReplay strict fs).map fun p => (p.1, p.2 + 1)

/-- The intact records of a journal, in order. -/
def goodFrames (fs : List JFrame) : List Bytes :=
  fs.filterMap fun f =>
    match f with
    | .recFrame b => some b
    | .corruptFrame => none

/-- How many corrupted records a journal holds. -/
def corruptCount (fs : List JFrame) : Nat :=
  fs.countP fun f =>
    match f with
    | .corruptFrame => true
    | _ => false

/-- Outcome of `s.recover()` at the start of `Open`: the manifest was
read, or the database does not exist, or reading failed. -/
inductive ROutcome where
  | okExisting
  | missing
  | failed
  deriving DecidableEq, Repr

/-- `Open`'s flag handling (db.go:136-146): `s.recover()`, then
`os.IsNotExist(err) && CreateIfMissing` switches to `s.create()`,
`err == nil && ErrorIfExist` forces `os.ErrExist`, any remaining error
is returned, and otherwise `openDB` runs (its outcome `odb` is a
parameter).  `createRes` is `s.create()`'s outcome. -/
def openGo (r : ROutcome) (createIfMissing errorIfExist : Bool)
    (createRes : Option DBErr) (odb : Except DBErr Unit) : Except DBErr Unit :=
  let err0 : Option DBErr :=
    match r with
    | .okExisting => none
    | .missing => some .notExist
    | .failed => some .ioError
  let err1 : Option DBErr :=
    if err0 = some DBErr.notExist ∧ createIfMissing = true then createRes
    else if err0 = none ∧ errorIfExist = true then some .errExist
    else err0
  match err1 with
  | some e => .error e
  | none => odb

/-- The property-name namespace tag, `GetProperty`'s required start
(db.go:492-494). -/
def propPfx : List Char := "leveldb.".data

/-- The per-level file-count property stem (db.go:504). -/
def numFilesTag : List Char := "num-files-at-level".data

/-- `(*version).tLen(level)`: number of tables at a level of a version. -/
def tLen (v : Version) (level : Nat) : Nat := (v.getD level []).length

/-- Placeholder for the `stats` rendering (db.go:513-525); its
floating-point formatting is out of scope and no claim consults it. -/
def statsText : List Char := "Compactions".data

/-- Placeholder for the `sstables` rendering (db.go:526-532); no claim
consults it. -/
def sstablesText : List Char := "sstables".data

/-- `(*DB).GetProperty` (db.go:486-538).  For the
`num-files-at-level` stem the source runs
`fmt.Scanf("%d%s", &level, &rest)`, which scans the process's standard
input and never the property name; `scanned` is that stdin scan's
outcome: `some level` when `Scanf` returned exactly one scanned item
(`n == 1`), `none` otherwise.  The level bound `level >= kNumLevels`
and the error paths mirror the source. -/
def getPropertyGo (closed : Bool) (scanned : Option Nat) (name : List Char)
    (v : Version) : Except DBErr (List Char) :=
  if closed then .error .closed
  else if propPfx.isPrefixOf name then
    let p := name.drop 8
    if numFilesTag.isPrefixOf p then
      match scanned with
      | some level =>
          if kNumLevels ≤ level then .error .invalidProperty
          else .ok (Nat.repr (tLen v level)).data
      | none => .error .invalidProperty
    else if p = "stats".data then .ok statsText
    else if p = "sstables".data then .ok sstablesText
    else .error .unknownProperty
  else .error .unknownProperty

/-- Decimal digit value of a character. -/
def digitVal (c : Char) : Option Nat :=
  let n := c.toNat
  if 48 ≤ n ∧ n ≤ 57 then some (n - 48) else none

/-- Parse a nonempty all-decimal character list. -/
def digitsToNat (cs : List Char) : Option Nat :=
  match cs with
  | [] => none
  | _ =>
      cs.foldl
        (fun acc c =>
          match acc, digitVal c with
          | some a, some d => some (a * 10 + d)
          | _, _ => none)
        (some 0)

/-- The behaviour claim C4 asserts of `GetProperty` for the
`num-files-at-level` stem: the level is parsed from the numeric suffix
of the property name itself. -/
def specNumFilesAtLevel (name : List Char) (v : Version) :
    Except DBErr (List Char) :=
  if propPfx.isPrefixOf name ∧ numFilesTag.isPrefixOf (name.drop 8) then
    match digitsToNat (name.drop 26) with
    | some level =>
        if kNumLevels ≤ level then .error .invalidProperty
        else .ok (Nat.repr (tLen v level)).data
    | none => .error .invalidProperty
  else .error .unknownProperty

/-- C4 demo input: the property name asking for level 0. -/
def c4name : List Char := "leveldb.num-files-at-level0".data

/-- C4 demo input: a version with no tables at level 0 and two tables
at level 3. -/
def c4ver : Version := [[], [], [], [[], []]]

/-- A user-key range for `GetApproximateSizes` / `CompactRange`. -/
structure KRange where
  start : Bytes
  limit : Bytes
  deriving DecidableEq, Repr

/-- The loop of `(*DB).GetApproximateSizes` (db.go:554-571) over the
version's `getApproximateOffset` (version.go, not under src/), passed
in as the oracle `off`: both boundaries are probed at `kMaxSeq` with
seek kind, an oracle error aborts, and each size is
`limit - start` guarded by `limit >= start` (no unsigned underflow). -/
def getApproximateSizesGo (off : Bytes → Except DBErr Nat) :
    List KRange → Except DBErr (List Nat)
  | [] => .ok []
  | r :: rs =>
      match off (newIKey r.start kMaxSeq tSeek) with
      | .error e => .error e
      | .ok a =>
          match off (newIKey r.limit kMaxSeq tSeek) with
          | .error e => .error e
          | .ok b =>
              match getApproximateSizesGo off rs with
              | .error e => .error e
              | .ok sizes => .ok ((if a ≤ b then b - a else 0) :: sizes)

/-- The public-call state of a DB handle. -/
structure DBState where
  closed : Bool
  seq : Nat
  mem : Memtable
  frozen : Option Memtable
  ver : Version
  compErr : Option DBErr

/-- Modelled from the spec: `d.ok()` (db_state helper, not under src/;
§5 "closing the DB refuses new public calls with Closed", §7 "Closed
takes precedence over all others after Close"). -/
def dOk (d : DBState) : Option DBErr :=
  if d.closed then some .closed else none

/-- `(*DB).Get` (db.go:432-443): `d.ok()` then the internal get at the
current sequence (the buffer copy has no observable effect under value
semantics). -/
def dbGetAPI (d : DBState) (key : Bytes) : Except DBErr Bytes :=
  match dOk d with
  | some e => .error e
  | none => dbGet d.mem d.frozen d.ver key d.seq

/-- `(*DB).GetSnapshot` (db.go:469-475): `d.ok()` then a snapshot of
the current sequence. -/
def getSnapshotAPI (d : DBState) : Except DBErr Nat :=
  match dOk d with
  | some e => .error e
  | none => .ok d.seq

/-- `(*DB).NewIterator` (db.go:454-462): on a `d.ok()` failure the
returned empty iterator carries the error, modelled as `.error`. -/
def newIteratorAPI (d : DBState) : Except DBErr Unit :=
  match dOk d with
  | some e => .error e
  | none => .ok ()

/-- `(*DB).GetProperty` behind `d.ok()` (db.go:486-489). -/
def getPropertyAPI (d : DBState) (scanned : Option Nat) (name : List Char) :
    Except DBErr (List Char) :=
  getPropertyGo d.closed scanned name d.ver

/-- `(*DB).GetApproximateSizes` behind `d.ok()` (db.go:546-549). -/
def getApproximateSizesAPI (d : DBState) (off : Bytes → Except DBErr Nat)
    (ranges : List KRange) : Except DBErr (List Nat) :=
  match dOk d with
  | some e => .error e
  | none => getApproximateSizesGo off ranges

/-- `(*DB).CompactRange` (db.go:586-615): `d.ok()`, then the request
submission whose select propagates a latched compaction error; the
in-flight close signal is concurrency and out of scope. -/
def compactRangeAPI (d : DBState) (_r : KRange) : Except DBErr Unit :=
  match dOk d with
  | some e => .error e
  | none =>
      match d.compErr with
      | some e => .error e
      | none => .ok ()

/-- `(*DB).Close` (db.go:622-657): `d.setClosed()` is a
compare-and-swap on the closed flag, so a second `Close` returns
`ErrClosed` (db.go:623-625). -/
def closeGo (d : DBState) : Except DBErr DBState :=
  if d.closed then .error .closed else .ok { d with closed := true }

/-- Modelled from the spec: the open-table cache (leveldb/cache
LRUCache, not under src/; §4.5 "an LRU of open table readers whose
capacity is max_open_files − reserved").  `entries` lists the cached
table handles, most recently used first. -/
structure TableCache where
  capacity : Nat
  entries : List Nat
  deriving DecidableEq, Repr

/-- Modelled from the spec: `cache.SetCapacity` (leveldb/cache, not
under src/): records the new capacity and evicts least-recently-used
entries only while over it. -/
def TableCache.setCapacity (c : TableCache) (n : Nat) : TableCache :=
  ⟨n, c.entries.take n⟩

/-- Modelled from the spec: `cache.Purge(nil)` (leveldb/cache, not
under src/) drops every cached entry — the call `SetBlockCache`
makes on the table cache (part_000:74). -/
def TableCache.purgeAll (c : TableCache) : TableCache :=
  ⟨c.capacity, []⟩

/-- The options state `SetMaxOpenFiles` touches. -/
structure OptState where
  maxOpenFiles : Nat
  tblCache : TableCache
  deriving DecidableEq, Repr

/-- `(*iOptions).SetMaxOpenFiles` (part_000:52-61): store the new
value, then `o.s.tops.cache.SetCapacity(max)` — capacity resize, not a
purge. -/
def setMaxOpenFilesGo (st : OptState) (mx : Nat) : OptState :=
  { maxOpenFiles := mx, tblCache := st.tblCache.setCapacity mx }

/-- C7 witness input: a single (empty) table file numbered 1. -/
def c7files : List SFile := [⟨1, .table, []⟩]

/-- C8 witness input: an offset oracle answering the probe's length. -/
def c8off : Bytes → Except DBErr Nat := fun k => .ok k.length

/-- C8 witness input: one range with a one-byte start key and a
two-byte limit key. -/
def c8range : KRange := ⟨[0], [1, 2]⟩

/-! ## Helper lemmas -/

theorem le_foldl_seqStep (recs : List Bytes) : ∀ acc : Nat, acc ≤ recs.foldl seqStep acc := by
  induction recs with
  | nil => intro acc; simp
  | cons k ks ih =>
    intro acc
    rw [List.foldl_cons]
    refine le_trans ?_ (ih (seqStep acc k))
    simp only [seqStep]
    cases hp : parseNum k with
    | none => exact le_refl acc
    | some p =>
      dsimp only
      split
      · omega
      · exact le_refl acc

theorem foldl_seqStep_ub (recs : List Bytes) : ∀ (acc : Nat) (k : Bytes) (sq kd : Nat),
    k ∈ recs → parseNum k = some (sq, kd) → sq ≤ recs.foldl seqStep acc := by
  induction recs with
  | nil => intro acc k sq kd hk; cases hk
  | cons x xs ih =>
    intro acc k sq kd hk hp
    rw [List.foldl_cons]
    rcases List.mem_cons.mp hk with rfl | hk2
    · refine le_trans ?_ (le_foldl_seqStep xs (seqStep acc k))
      simp only [seqStep, hp]
      split
      · exact le_refl sq
      · omega
    · exact ih (seqStep acc x) k sq kd hk2 hp

theorem foldl_seqStep_attained (recs : List Bytes) : ∀ acc : Nat,
    recs.foldl seqStep acc = acc ∨
      ∃ k ∈ recs, ∃ kd, parseNum k = some (recs.foldl seqStep acc, kd) := by
  induction recs with
  | nil => intro acc; left; rfl
  | cons x xs ih =>
    intro acc
    rw [List.foldl_cons]
    rcases ih (seqStep acc x) with heq | ⟨k, hk, kd, hp⟩
    · rw [heq]
      cases hp : parseNum x with
      | none => left; simp [seqStep, hp]
      | some p =>
        by_cases hlt : acc < p.1
        · right
          refine ⟨x, List.mem_cons_self x xs, p.2, ?_⟩
          simp [seqStep, hp, hlt]
        · left; simp [seqStep, hp, hlt]
    · right; exact ⟨k, List.mem_cons_of_mem x hk, kd, hp⟩

theorem sorted_num_le_getLast : ∀ (l : List SFile), l.Sorted fileLe →
    ∀ a : SFile, a ∈ l → ∀ h : l ≠ [], a.num ≤ (l.getLast h).num := by
  intro l
  induction l with
  | nil => intro _ a ha; cases ha
  | cons x t ih =>
    intro hs a ha h
    rcases List.sorted_cons.mp hs with ⟨hx, ht⟩
    cases t with
    | nil =>
      have hax : a = x := by simpa using ha
      subst hax
      simp [List.getLast]
    | cons y t2 =>
      have hne2 : y :: t2 ≠ [] := by simp
      have hgl : (x :: y :: t2).getLast h = (y :: t2).getLast hne2 := by
        simp [List.getLast]
      rcases List.mem_cons.mp ha with rfl | hat
      · rw [hgl]
        exact hx _ (List.getLast_mem hne2)
      · rw [hgl]
        exact ih ht a hat hne2

theorem num_le_of_sortFiles_getLast (l : List SFile) (a : SFile) (ha : a ∈ l)
    (last : SFile) (hl : (sortFiles l).getLast? = some last) : a.num ≤ last.num := by
  have hperm := List.perm_insertionSort fileLe l
  have hmem : a ∈ sortFiles l := hperm.mem_iff.mpr ha
  have hne : sortFiles l ≠ [] := by
    intro h0
    rw [h0] at hl
    simp at hl
  have hsorted : (sortFiles l).Sorted fileLe := List.sorted_insertionSort fileLe l
  have hgl : (sortFiles l).getLast hne = last := by
    have := List.getLast?_eq_getLast (sortFiles l) hne
    rw [this] at hl
    exact Option.some.inj hl
  have := sorted_num_le_getLast (sortFiles l) hsorted a hmem hne
  rwa [hgl] at this

theorem recoverPipeline_ok_elim (files : List SFile) (st : RState)
    (h : recoverPipeline files = .ok st) :
    ∃ last, (sortFiles files).getLast? = some last ∧
      st = ⟨recoverSeq files, last.num + 2, files ++ [⟨last.num + 1, .manifest, []⟩]⟩ := by
  simp only [recoverPipeline] at h
  cases hl : (sortFiles files).getLast? with
  | none => rw [hl] at h; cases h
  | some last =>
    rw [hl] at h
    exact ⟨last, rfl, (Except.ok.inj h).symm⟩

/-! ## Claim theorems -/

/-- C1: the claim says `Get(K)@s` resolves to the record with maximum
`seq ≤ s` and reports `NotFound` when that record is a tombstone.  On
the code this fails: with a tombstone for the key in the active
memtable (seq 2) and an older value in the frozen memtable (seq 1),
`(*DB).get` returns the old value `[118]` because `memGet` answers
`false` for a tombstone hit and the lookup falls through, while the
spec's resolution of the very same records is `NotFound`. -/
theorem get_stale_value_past_memtable_tombstone :
    dbGet c1mem (some c1frozen) ([] : Version) c1key 2 = .ok [118] ∧
    specResolve (allRecords c1mem (some c1frozen) []) c1key 2 =
      .error .notFound := by
  decide

/-- C2 counterexample: the claim says `Recover` seeds the last sequence
from the largest sequence over the records of all scanned tables.  With
an older table (file 1) holding sequence 5 and the newest table (file
2) holding only sequence 3, the committed sequence is 3 while the
all-table maximum is 5. -/
theorem recover_seq_ignores_older_tables :
    recoverPipeline c2files =
      .ok ⟨3, 4, c2files ++ [⟨3, .manifest, []⟩]⟩ ∧
    maxSeqAllTables c2files = 5 ∧ (3 : Nat) ≠ 5 := by
  decide

/-- C2 amended: after `Recover` commits, the last sequence is the
largest parseable sequence among the records of the newest nonempty
table of the sorted file list alone (db.go:243-258), and 0 when no such
table exists: it is an upper bound of that table's record sequences and
is attained by one of them unless it is 0. -/
theorem recover_seq_is_newest_table_max :
    (∀ (files : List SFile) (st : RState) (t : SFile),
        recoverPipeline files = .ok st → newestTable files = some t →
        (∀ k ∈ t.recs, ∀ sq kd, parseNum k = some (sq, kd) → sq ≤ st.stSeq) ∧
        (st.stSeq = 0 ∨ ∃ k ∈ t.recs, ∃ kd, parseNum k = some (st.stSeq, kd))) ∧
    (∀ (files : List SFile) (st : RState),
        recoverPipeline files = .ok st → newestTable files = none →
        st.stSeq = 0) := by
  constructor
  · intro files st t hok hnt
    rcases recoverPipeline_ok_elim files st hok with ⟨last, _, hst⟩
    have hseq : st.stSeq = tableMaxSeq t.recs := by
      rw [hst]
      simp [recoverSeq, hnt]
    rw [hseq]
    simp only [tableMaxSeq]
    constructor
    · intro k hk sq kd hp
      exact foldl_seqStep_ub t.recs 0 k sq kd hk hp
    · exact foldl_seqStep_attained t.recs 0
  · intro files st hok hnt
    rcases recoverPipeline_ok_elim files st hok with ⟨last, _, hst⟩
    rw [hst]
    simp [recoverSeq, hnt]

/-- C2 witness: the amended theorem applied to the two-table storage:
the committed sequence 3 bounds and is attained by the newest table's
records. -/
theorem recover_seq_is_newest_table_max_witness :
    (∀ k ∈ (⟨2, FType.table, [newIKey [11] 3 tVal]⟩ : SFile).recs,
        ∀ sq kd, parseNum k = some (sq, kd) → sq ≤ (3 : Nat)) ∧
    ((3 : Nat) = 0 ∨
      ∃ k ∈ (⟨2, FType.table, [newIKey [11] 3 tVal]⟩ : SFile).recs,
        ∃ kd, parseNum k = some (3, kd)) :=
  recover_seq_is_newest_table_max.1 c2files
    ⟨3, 4, c2files ++ [⟨3, .manifest, []⟩]⟩
    ⟨2, FType.table, [newIKey [11] 3 tVal]⟩ (by decide) (by decide)

/-- C3: journal replay with `Strict` unset never errors on a corrupted
record — it drops it, reports it to the drop sink (counted), and keeps
the surviving records; with `Strict` set, replay errors exactly when a
corruption is present. -/
theorem journal_replay_strict_modes :
    ∀ frames : List JFrame,
      journalReplay false frames = .ok (goodFrames frames, corruptCount frames) ∧
      journalReplay true frames =
        (if corruptCount frames = 0 then .ok (goodFrames frames, 0)
         else .error .corruption) := by
  intro frames
  induction frames with
  | nil => exact ⟨rfl, rfl⟩
  | cons f fs ih =>
    rcases ih with ⟨ih1, ih2⟩
    cases f with
    | recFrame b =>
      constructor
      · simp [journalReplay, goodFrames, corruptCount, ih1,
          List.countP_cons, Except.map]
      · simp only [journalReplay]
        rw [ih2]
        have hcc : corruptCount (JFrame.recFrame b :: fs) = corruptCount fs := by
          simp [corruptCount, List.countP_cons]
        by_cases h0 : corruptCount fs = 0
        · rw [if_pos h0, hcc, if_pos h0]
          simp [Except.map, goodFrames]
        · rw [if_neg h0, hcc, if_neg h0]
          simp [Except.map]
    | corruptFrame =>
      constructor
      · simp [journalReplay, goodFrames, corruptCount, ih1,
          List.countP_cons, Except.map]
      · simp [journalReplay, corruptCount, List.countP_cons]

/-- C4: the claim says the level is determined solely by parsing the
numeric suffix of the property name.  On the code this fails:
`fmt.Scanf` reads the process's standard input, so with stdin providing
3 the call for `leveldb.num-files-at-level0` answers level 3's table
count "2", while parsing the name's suffix as claimed answers level 0's
count "0". -/
theorem getproperty_level_from_stdin_not_name :
    getPropertyGo false (some 3) c4name c4ver = .ok ("2").data ∧
    specNumFilesAtLevel c4name c4ver = .ok ("0").data ∧
    ("2").data ≠ ("0").data := by
  decide

/-- C5: `Open` on a missing database runs `openDB` after a successful
create when `CreateIfMissing` is set and fails with the
does-not-exist error when it is not; on an existing database with
`ErrorIfExist` set it fails with `os.ErrExist`. -/
theorem open_flag_handling :
    (∀ (eie : Bool) (odb : Except DBErr Unit),
        openGo .missing true eie none odb = odb) ∧
    (∀ (eie : Bool) (cr : Option DBErr) (odb : Except DBErr Unit),
        openGo .missing false eie cr odb = .error .notExist) ∧
    (∀ (cim : Bool) (cr : Option DBErr) (odb : Except DBErr Unit),
        openGo .okExisting cim true cr odb = .error .errExist) :=
  ⟨fun _ _ => rfl, fun _ _ _ => rfl, fun _ _ _ => rfl⟩

/-- C6: on a closed DB every public call — Get, GetSnapshot,
NewIterator, GetProperty, GetApproximateSizes, CompactRange and a
second Close — answers the Closed error, whatever the rest of the
state holds. -/
theorem closed_db_refuses_public_calls :
    ∀ (seq : Nat) (mem : Memtable) (frozen : Option Memtable) (ver : Version)
      (ce : Option DBErr) (key : Bytes) (scanned : Option Nat)
      (name : List Char) (off : Bytes → Except DBErr Nat)
      (ranges : List KRange) (r : KRange),
      dbGetAPI ⟨true, seq, mem, frozen, ver, ce⟩ key = .error .closed ∧
      getSnapshotAPI ⟨true, seq, mem, frozen, ver, ce⟩ = .error .closed ∧
      newIteratorAPI ⟨true, seq, mem, frozen, ver, ce⟩ = .error .closed ∧
      getPropertyAPI ⟨true, seq, mem, frozen, ver, ce⟩ scanned name =
        .error .closed ∧
      getApproximateSizesAPI ⟨true, seq, mem, frozen, ver, ce⟩ off ranges =
        .error .closed ∧
      compactRangeAPI ⟨true, seq, mem, frozen, ver, ce⟩ r = .error .closed ∧
      closeGo ⟨true, seq, mem, frozen, ver, ce⟩ = .error .closed :=
  fun _ _ _ _ _ _ _ _ _ _ _ => ⟨rfl, rfl, rfl, rfl, rfl, rfl, rfl⟩

/-- C7: after `Recover` commits its fresh manifest, the session's next
file number strictly exceeds the number of every file then on the
storage, the new manifest included. -/
theorem recover_next_file_num_exceeds_all :
    ∀ (files : List SFile) (st : RState), recoverPipeline files = .ok st →
      ∀ f ∈ st.files, f.num < st.stFileNum := by
  intro files st hok f hf
  rcases recoverPipeline_ok_elim files st hok with ⟨last, hl, hst⟩
  subst hst
  simp only at hf ⊢
  rcases List.mem_append.mp hf with hmem | hmem
  · have := num_le_of_sortFiles_getLast files f hmem last hl
    omega
  · have hfm : f = ⟨last.num + 1, .manifest, []⟩ := by simpa using hmem
    rw [hfm]
    show last.num + 1 < last.num + 2
    omega

/-- C7 witness: on a storage holding one table file numbered 1, the
committed state has next file number 3, above the manifest file 2. -/
theorem recover_next_file_num_exceeds_all_witness : (2 : Nat) < 3 :=
  recover_next_file_num_exceeds_all c7files
    ⟨0, 3, [⟨1, FType.table, []⟩, ⟨2, FType.manifest, []⟩]⟩ (by decide)
    ⟨2, FType.manifest, []⟩ (by decide)

/-- C8: a successful `GetApproximateSizes` answers one size per given
range, each boundary probed with the internal key at `kMaxSeq` and seek
kind, and each size is the limit offset minus the start offset when
nonnegative and 0 otherwise. -/
theorem approximate_sizes_shape :
    ∀ (off : Bytes → Except DBErr Nat) (ranges : List KRange) (sizes : List Nat),
      getApproximateSizesGo off ranges = .ok sizes →
      sizes.length = ranges.length ∧
      ∀ i, i < ranges.length →
        ∃ a b,
          off (newIKey (ranges.getD i ⟨[], []⟩).start kMaxSeq tSeek) = .ok a ∧
          off (newIKey (ranges.getD i ⟨[], []⟩).limit kMaxSeq tSeek) = .ok b ∧
          sizes.getD i 0 = if a ≤ b then b - a else 0 := by
  intro off ranges
  induction ranges with
  | nil =>
    intro sizes h
    simp only [getApproximateSizesGo] at h
    have hs : sizes = [] := (Except.ok.inj h).symm
    subst hs
    exact ⟨rfl, fun i hi => absurd hi (by simp)⟩
  | cons r rs ih =>
    intro sizes h
    simp only [getApproximateSizesGo] at h
    cases ha : off (newIKey r.start kMaxSeq tSeek) with
    | error e => rw [ha] at h; cases h
    | ok a =>
      rw [ha] at h
      cases hb : off (newIKey r.limit kMaxSeq tSeek) with
      | error e => rw [hb] at h; cases h
      | ok b =>
        rw [hb] at h
        cases hrec : getApproximateSizesGo off rs with
        | error e => rw [hrec] at h; cases h
        | ok tail =>
          rw [hrec] at h
          have hs : sizes = (if a ≤ b then b - a else 0) :: tail :=
            (Except.ok.inj h).symm
          subst hs
          rcases ih tail hrec with ⟨hlen, hidx⟩
          refine ⟨by simp [hlen], ?_⟩
          intro i hi
          cases i with
          | zero => exact ⟨a, b, ha, hb, rfl⟩
          | succ j =>
            have hj : j < rs.length := by simpa using hi
            exact hidx j hj

/-- C8 witness: the theorem applied to the length oracle and a single
range whose probes measure 9 and 10 bytes, for the size list `[1]`. -/
theorem approximate_sizes_shape_witness :
    ([1] : List Nat).length = [c8range].length ∧
    ∀ i, i < [c8range].length →
      ∃ a b,
        c8off (newIKey ([c8range].getD i ⟨[], []⟩).start kMaxSeq tSeek) = .ok a ∧
        c8off (newIKey ([c8range].getD i ⟨[], []⟩).limit kMaxSeq tSeek) = .ok b ∧
        ([1] : List Nat).getD i 0 = if a ≤ b then b - a else 0 :=
  approximate_sizes_shape c8off [c8range] [1] (by decide)

/-- C9 counterexample: the claim says a runtime resize of
`MaxOpenFiles` purges the open-table cache.  On the code this fails:
`SetMaxOpenFiles` calls `SetCapacity`, so with one cached handle and a
resize to capacity 2 the handle survives. -/
theorem set_max_open_files_does_not_purge :
    setMaxOpenFilesGo ⟨1, ⟨1, [42]⟩⟩ 2 = ⟨2, ⟨2, [42]⟩⟩ ∧
    (setMaxOpenFilesGo ⟨1, ⟨1, [42]⟩⟩ 2).tblCache.entries ≠ [] := by
  decide

/-- C9 amended: `SetMaxOpenFiles` records the new value and resizes the
table cache's capacity; entries are evicted only beyond the new
capacity, so a cache within it keeps every cached handle. -/
theorem set_max_open_files_sets_capacity :
    ∀ (st : OptState) (mx : Nat),
      (setMaxOpenFilesGo st mx).maxOpenFiles = mx ∧
      (setMaxOpenFilesGo st mx).tblCache = st.tblCache.setCapacity mx ∧
      (st.tblCache.entries.length ≤ mx →
        (setMaxOpenFilesGo st mx).tblCache.entries = st.tblCache.entries) :=
  fun st mx =>
    ⟨rfl, rfl, fun h => by
      simp [setMaxOpenFilesGo, TableCache.setCapacity, List.take_of_length_le h]⟩

/-- C9 witness: the amended theorem at a cache holding one handle and a
resize to 5: the capacity is recorded and the handle survives. -/
theorem set_max_open_files_sets_capacity_witness :
    (setMaxOpenFilesGo ⟨3, ⟨3, [7]⟩⟩ 5).maxOpenFiles = 5 ∧
    (setMaxOpenFilesGo ⟨3, ⟨3, [7]⟩⟩ 5).tblCache =
      TableCache.setCapacity ⟨3, [7]⟩ 5 ∧
    (setMaxOpenFilesGo ⟨3, ⟨3, [7]⟩⟩ 5).tblCache.entries = [7] :=
  ⟨(set_max_open_files_sets_capacity ⟨3, ⟨3, [7]⟩⟩ 5).1,
   (set_max_open_files_sets_capacity ⟨3, ⟨3, [7]⟩⟩ 5).2.1,
   (set_max_open_files_sets_capacity ⟨3, ⟨3, [7]⟩⟩ 5).2.2 (by decide)⟩

/-- C10: the claim says `Recover` never indexes out of bounds, even on
an empty file listing.  On the code this fails: with no files,
`ff[len(ff)-1]` at db.go:261 is an out-of-range access (a Go runtime
panic), modelled here as the `indexOutOfRange` outcome instead of a
returned error. -/
theorem recover_empty_listing_out_of_bounds :
    recoverPipeline [] = .error .indexOutOfRange := by
  decide

end GoLevelDB
